import Mathlib

/-!
Verification of the otio-svg adapter (Go): a write-only encoder rendering
OpenTimelineIO timelines as SVG.  The development shallowly embeds the two
source files `svg.go` (the SVG builder) and `encoder.go` (the timeline
encoder) over exact rational arithmetic (`ℚ` stands for Go's `float64`),
with strings built exactly as the Go code formats them.  Ghost fields on the
builder state (group counters, line/text/placement logs) record what was
emitted; they change no emitted byte.
-/

set_option maxHeartbeats 1000000

namespace OtioSvg

/-! ## Numeric helpers modelling Go formatting and conversions -/

/-- Go's `int(x)` conversion: truncation of a rational toward zero. -/
def ratTrunc (q : ℚ) : ℤ := q.num.tdiv q.den

/-- Round to the nearest integer, ties to even — the rounding used by Go's
`fmt` when printing a value with a fixed number of decimals. -/
def roundHalfEven (q : ℚ) : ℤ :=
  let f := ⌊q⌋
  let r := q - (f : ℚ)
  if r < 1 / 2 then f
  else if 1 / 2 < r then f + 1
  else if f % 2 = 0 then f else f + 1

/-- Go's `%02d`: decimal rendering zero-padded to width 2. -/
def pad2 (n : ℤ) : String :=
  if (toString n).length < 2 then "0" ++ toString n else toString n

/-- Two-digit decimal fraction part, zero padded. -/
def decPad2 (m : ℕ) : String :=
  if m < 10 then "0" ++ toString m else toString m

/-- Go's `%.1f` on a rational value. -/
def fmt1 (q : ℚ) : String :=
  let n := roundHalfEven (q * 10)
  if n < 0 then
    "-" ++ toString ((-n).toNat / 10) ++ "." ++ toString ((-n).toNat % 10)
  else
    toString (n.toNat / 10) ++ "." ++ toString (n.toNat % 10)

/-- Go's `%.2f` on a rational value. -/
def fmt2 (q : ℚ) : String :=
  let n := roundHalfEven (q * 100)
  if n < 0 then
    "-" ++ toString ((-n).toNat / 100) ++ "." ++ decPad2 ((-n).toNat % 100)
  else
    toString (n.toNat / 100) ++ "." ++ decPad2 (n.toNat % 100)

/-! ## Escaping (`svg.go`: `escapeAttr`, `escapeText`)

Go's `strings.ReplaceAll` with a single-character pattern, modelled on the
character list of a string. -/

/-- `strings.ReplaceAll` specialised to a one-character pattern: every
occurrence of `c` is replaced by `r`; the replacement is not rescanned. -/
def replaceAllCharL (c : Char) (r : List Char) : List Char → List Char
  | [] => []
  | x :: xs =>
    if x = c then r ++ replaceAllCharL c r xs else x :: replaceAllCharL c r xs

/-- String-level wrapper for `replaceAllCharL`. -/
def replaceAllChar (s : String) (c : Char) (r : String) : String :=
  ⟨replaceAllCharL c r.data s.data⟩

/-- `escapeAttr` from `svg.go`: sequential replacement of `&`, `"`, `<`, `>`
(in that order) by their XML entities. -/
def escapeAttr (s : String) : String :=
  replaceAllChar
    (replaceAllChar (replaceAllChar (replaceAllChar s '&' "&amp;") '"' "&quot;")
      '<' "&lt;") '>' "&gt;"

/-- `escapeText` from `svg.go`: sequential replacement of `&`, `<`, `>`. -/
def escapeText (s : String) : String :=
  replaceAllChar (replaceAllChar (replaceAllChar s '&' "&amp;") '<' "&lt;") '>' "&gt;"

/-- Character-wise description of attribute escaping, following the spec's
words: each reserved character independently becomes its entity. -/
def escAttrChar (c : Char) : List Char :=
  if c = '&' then "&amp;".data
  else if c = '"' then "&quot;".data
  else if c = '<' then "&lt;".data
  else if c = '>' then "&gt;".data
  else [c]

/-- Character-wise description of text escaping (no quote handling). -/
def escTextChar (c : Char) : List Char :=
  if c = '&' then "&amp;".data
  else if c = '<' then "&lt;".data
  else if c = '>' then "&gt;".data
  else [c]

/-- Attribute escaping as an independent character-wise map. -/
def escapeAttrSpec (s : String) : String := ⟨s.data.flatMap escAttrChar⟩

/-- Text escaping as an independent character-wise map. -/
def escapeTextSpec (s : String) : String := ⟨s.data.flatMap escTextChar⟩

/-! ## The SVG builder state (`svg.go`)

`out` and `indent` are the real state of Go's `SVGBuilder` (output written so
far, current indentation).  `gOpen`, `gClose`, `lines`, `texts`, `places` are
ghost instrumentation recording, respectively, the number of `<g>` openings
and closings, every `WriteLine` call, every `WriteText` call, and every
item placement made by the encoder's draw functions. -/

/-- Kind tag for a placed timeline item (ghost). -/
inductive ItemKind
  | clip
  | gap
  | transition
  deriving DecidableEq, Repr

/-- A recorded item placement: kind, x position and width (ghost). -/
structure Placement where
  kind : ItemKind
  x : ℚ
  w : ℚ
  deriving DecidableEq, Repr

/-- Builder + ghost state. -/
structure St where
  out : String
  indent : ℤ
  gOpen : ℕ
  gClose : ℕ
  lines : List (ℚ × ℚ × ℚ × ℚ × String)
  texts : List (ℚ × ℚ × String × String × String)
  places : List Placement
  deriving DecidableEq

/-- Fresh builder (`NewSVGBuilder`): nothing written, indentation 0. -/
def initSt : St := ⟨"", 0, 0, 0, [], [], []⟩

/-- `strings.Repeat("  ", level)`. -/
def indentStr (level : ℤ) : String :=
  String.join (List.replicate level.toNat "  ")

/-- `WriteHeader`: XML declaration and root `<svg>` tag sized to
width/height, with matching view box; sets the indentation to 1. -/
def headerString (width height : ℤ) : String :=
  "<?xml version=\"1.0\" encoding=\"UTF-8\"?>\n<svg xmlns=\"http://www.w3.org/2000/svg\" width=\""
    ++ toString width ++ "\" height=\"" ++ toString height ++ "\" viewBox=\"0 0 "
    ++ toString width ++ " " ++ toString height ++ "\">\n"

/-- `SVGBuilder.WriteHeader`. -/
def writeHeader (b : St) (width height : ℤ) : St :=
  { b with out := b.out ++ headerString width height, indent := 1 }

/-- `SVGBuilder.WriteFooter`. -/
def writeFooter (b : St) : St :=
  { b with out := b.out ++ "</svg>\n" }

/-- `SVGBuilder.StartGroup`. -/
def startGroup (b : St) (id cls : String) : St :=
  let attrs :=
    (if id ≠ "" then " id=\"" ++ escapeAttr id ++ "\"" else "") ++
    (if cls ≠ "" then " class=\"" ++ escapeAttr cls ++ "\"" else "")
  { b with out := b.out ++ (indentStr b.indent ++ "<g" ++ attrs ++ ">\n"),
           indent := b.indent + 1, gOpen := b.gOpen + 1 }

/-- `SVGBuilder.EndGroup` (the indentation is decremented before writing). -/
def endGroup (b : St) : St :=
  { b with out := b.out ++ (indentStr (b.indent - 1) ++ "</g>\n"),
           indent := b.indent - 1, gClose := b.gClose + 1 }

/-- `SVGBuilder.WriteText`: `anchor` is written verbatim, `id`/`class` are
attribute-escaped, the content is text-escaped. -/
def writeText (b : St) (x y : ℚ) (text anchor id cls : String) : St :=
  let attrs :=
    "x=\"" ++ fmt2 x ++ "\" y=\"" ++ fmt2 y ++ "\"" ++
    (if anchor ≠ "" then " text-anchor=\"" ++ anchor ++ "\"" else "") ++
    (if id ≠ "" then " id=\"" ++ escapeAttr id ++ "\"" else "") ++
    (if cls ≠ "" then " class=\"" ++ escapeAttr cls ++ "\"" else "") ++
    " dominant-baseline=\"middle\""
  { b with
      out := b.out ++ (indentStr b.indent ++ "<text " ++ attrs ++ ">"
               ++ escapeText text ++ "</text>\n"),
      texts := b.texts ++ [(x, y, text, anchor, cls)] }

/-- `SVGBuilder.WriteRect`: `fill`/`stroke` are written verbatim, `id`/`class`
are attribute-escaped; a non-empty ninth argument adds a centred label. -/
def writeRect (b : St) (x y width height : ℚ) (fill stroke id cls text : String) : St :=
  let attrs :=
    "x=\"" ++ fmt2 x ++ "\" y=\"" ++ fmt2 y ++ "\" width=\"" ++ fmt2 width ++
    "\" height=\"" ++ fmt2 height ++ "\"" ++
    (if fill ≠ "" then " fill=\"" ++ fill ++ "\"" else "") ++
    (if stroke ≠ "" then " stroke=\"" ++ stroke ++ "\"" else "") ++
    (if id ≠ "" then " id=\"" ++ escapeAttr id ++ "\"" else "") ++
    (if cls ≠ "" then " class=\"" ++ escapeAttr cls ++ "\"" else "")
  let b1 := { b with out := b.out ++ (indentStr b.indent ++ "<rect " ++ attrs ++ " />\n") }
  if text = "" then b1
  else writeText b1 (x + width / 2) (y + height / 2) text "middle" "" "clip-label"

/-- `SVGBuilder.WritePath`: the path data, fill and stroke are verbatim. -/
def writePath (b : St) (d fill stroke : String) (strokeWidth : ℚ) (cls : String) : St :=
  let attrs :=
    "d=\"" ++ d ++ "\"" ++
    (if fill ≠ "" then " fill=\"" ++ fill ++ "\"" else "") ++
    (if stroke ≠ "" then " stroke=\"" ++ stroke ++ "\"" else "") ++
    (if strokeWidth > 0 then " stroke-width=\"" ++ fmt2 strokeWidth ++ "\"" else "") ++
    (if cls ≠ "" then " class=\"" ++ escapeAttr cls ++ "\"" else "")
  { b with out := b.out ++ (indentStr b.indent ++ "<path " ++ attrs ++ " />\n") }

/-- `SVGBuilder.WriteLine`. -/
def writeLine (b : St) (x1 y1 x2 y2 : ℚ) (stroke : String) (strokeWidth : ℚ)
    (cls : String) : St :=
  let attrs :=
    "x1=\"" ++ fmt2 x1 ++ "\" y1=\"" ++ fmt2 y1 ++ "\" x2=\"" ++ fmt2 x2 ++
    "\" y2=\"" ++ fmt2 y2 ++ "\"" ++
    (if stroke ≠ "" then " stroke=\"" ++ stroke ++ "\"" else "") ++
    (if strokeWidth > 0 then " stroke-width=\"" ++ fmt2 strokeWidth ++ "\"" else "") ++
    (if cls ≠ "" then " class=\"" ++ escapeAttr cls ++ "\"" else "")
  { b with out := b.out ++ (indentStr b.indent ++ "<line " ++ attrs ++ " />\n"),
           lines := b.lines ++ [(x1, y1, x2, y2, cls)] }

/-- `SVGBuilder.WriteStyle`: the CSS text is emitted verbatim. -/
def writeStyle (b : St) (css : String) : St :=
  { b with out := b.out ++ (indentStr b.indent ++ "<style>\n" ++ css ++ "\n"
             ++ indentStr b.indent ++ "</style>\n") }

/-! ## Constants (`encoder.go`) -/

/-- Default canvas width. -/
def DefaultWidth : ℤ := 1200
/-- Default canvas height. -/
def DefaultHeight : ℤ := 600
/-- Nominal track height in pixels. -/
def TrackHeightC : ℤ := 80
/-- Top margin. -/
def MarginTop : ℚ := 60
/-- Bottom margin. -/
def MarginBottom : ℚ := 40
/-- Left margin. -/
def MarginLeft : ℚ := 100
/-- Right margin. -/
def MarginRight : ℚ := 40
/-- Ruler band height. -/
def RulerHeight : ℚ := 40
/-- Minimum rendered item width. -/
def MinClipWidth : ℚ := 5

/-- Video track colour. -/
def VideoTrackColor : String := "#4A90E2"
/-- Audio track colour. -/
def AudioTrackColor : String := "#50C878"
/-- Gap fill colour. -/
def GapColor : String := "#E0E0E0"
/-- Transition accent colour. -/
def TransitionColor : String := "#FFB84D"
/-- Grid line colour. -/
def GridColor : String := "#CCCCCC"
/-- Ruler/track label background colour. -/
def TrackLabelBg : String := "#F5F5F5"
/-- Audio track kind constant of the timeline model. -/
def TrackKindAudio : String := "Audio"

/-! ## Timeline data model (the gotio interfaces read by the encoder) -/

/-- A rational time: value over rate, `ToSeconds` divides them. -/
structure RationalTime where
  value : ℚ
  rate : ℚ
  deriving DecidableEq, Repr

/-- `RationalTime.ToSeconds`. -/
def RationalTime.toSeconds (t : RationalTime) : ℚ := t.value / t.rate

/-- A timeline item: clip, gap or transition; `dur` is `none` when the
item's `Duration()` call fails (the encoder then skips the item). -/
inductive Item
  | clip (name : String) (dur : Option RationalTime) (visible : Bool)
  | gap (dur : Option RationalTime) (visible : Bool)
  | transition (dur : Option RationalTime)
  deriving DecidableEq, Repr

/-- `Item.Duration()`. -/
def Item.duration : Item → Option RationalTime
  | .clip _ d _ => d
  | .gap d _ => d
  | .transition d => d

/-- `Item.Visible()` (never consulted for transitions). -/
def Item.visible : Item → Bool
  | .clip _ _ v => v
  | .gap _ v => v
  | .transition _ => true

/-- A track: name, kind string and ordered items. -/
structure Track where
  name : String
  kind : String
  children : List Item
  deriving DecidableEq, Repr

/-- A child of the root track container: a track, or something else the
encoder silently skips. -/
inductive Child
  | track (t : Track)
  | other
  deriving DecidableEq, Repr

/-- The root track container (`Timeline.Tracks()`). -/
structure Stack where
  children : List Child
  deriving DecidableEq, Repr

/-- A timeline as read by the encoder: its (possibly failing) duration
computation and its (possibly absent) root track container. -/
structure Timeline where
  duration : Except String RationalTime
  tracks : Option Stack
  deriving Repr

/-! ## Pure helpers of `encoder.go` -/

/-- The ladder of tick intervals. -/
def intervalsList : List ℚ :=
  [1/10, 1/2, 1, 2, 5, 10, 15, 30, 60, 120, 300, 600, 1800, 3600]

/-- The interval-selection loop of `calculateTimeInterval`: return the first
ladder value `≥ ideal`, carrying the last seen value as fallback. -/
def calcLoop (ideal : ℚ) : List ℚ → ℚ → ℚ
  | [], best => best
  | i :: rest, _ => if i ≥ ideal then i else calcLoop ideal rest i

/-- `calculateTimeInterval`: aim for about 12 marks. -/
def calculateTimeInterval (durationSeconds : ℚ) : ℚ :=
  calcLoop (durationSeconds / 12) intervalsList (1/10)

/-- `formatTime`: seconds with one decimal below a minute, then m:ss,
then h:mm:ss (Go `int` truncation, `%` is Go's truncated remainder). -/
def formatTime (seconds : ℚ) : String :=
  if seconds < 60 then fmt1 seconds ++ "s"
  else
    let minutes : ℤ := ratTrunc (seconds / 60)
    let secs : ℤ := (ratTrunc seconds).tmod 60
    if minutes < 60 then toString minutes ++ ":" ++ pad2 secs
    else
      let hours := minutes.tdiv 60
      let minutes2 := minutes.tmod 60
      toString hours ++ ":" ++ pad2 minutes2 ++ ":" ++ pad2 secs

/-- The character test of `sanitizeID`: ASCII letter, digit, underscore or
hyphen. -/
def isIDChar (r : Char) : Bool :=
  (decide ('a' ≤ r) && decide (r ≤ 'z')) || (decide ('A' ≤ r) && decide (r ≤ 'Z')) ||
  (decide ('0' ≤ r) && decide (r ≤ '9')) || r == '_' || r == '-'

/-- The leading-character test of `sanitizeID`: ASCII letter. -/
def isAsciiLetter (r : Char) : Bool :=
  (decide ('a' ≤ r) && decide (r ≤ 'z')) || (decide ('A' ≤ r) && decide (r ≤ 'Z'))

/-- Per-character sanitisation: keep valid characters, others become `_`. -/
def sanChar (r : Char) : Char := if isIDChar r then r else '_'

/-- `sanitizeID` from `encoder.go`. -/
def sanitizeID (s : String) : String :=
  if s = "" then "unnamed"
  else
    let result := s.data.map sanChar
    match result with
    | [] => ⟨result⟩
    | first :: _ =>
      if isAsciiLetter first then ⟨result⟩ else "id_" ++ String.mk result

/-! ## Drawing functions of `encoder.go`

Each item-drawing function additionally records a ghost `Placement`. -/

/-- `drawClip`. -/
def drawClip (b : St) (name : String) (x y width height : ℚ) (trackColor : String) : St :=
  let clipID := "clip-" ++ sanitizeID name
  let padding : ℚ := 2
  let clipY := y + padding
  let clipHeight := height - 2 * padding
  let b1 := writeRect b x clipY width clipHeight trackColor "#333" clipID "clip" ""
  let b2 :=
    if width > 30 then
      let clipName := if name = "" then "Clip" else name
      writeText b1 (x + width / 2) (y + height / 2) clipName "middle" "" "clip-label"
    else b1
  { b2 with places := b2.places ++ [⟨ItemKind.clip, x, width⟩] }

/-- `drawGap`.  Go derives the id from the gap's address (`gap-%p`), an
opaque unique token; it is modelled by a fixed token here. -/
def drawGap (b : St) (x y width height : ℚ) : St :=
  let gapID := "gap-0x0"
  let padding : ℚ := 2
  let gapY := y + padding
  let gapHeight := height - 2 * padding
  let b1 := writeRect b x gapY width gapHeight GapColor "#999" gapID "gap" ""
  { b1 with places := b1.places ++ [⟨ItemKind.gap, x, width⟩] }

/-- `drawTransition`: a diagonal line from bottom-left to top-right. -/
def drawTransition (b : St) (x y width height : ℚ) : St :=
  let padding : ℚ := 2
  let transY := y + padding
  let transHeight := height - 2 * padding
  let x1 := x
  let y1 := transY + transHeight
  let x2 := x + width
  let y2 := transY
  let path := "M " ++ fmt2 x1 ++ " " ++ fmt2 y1 ++ " L " ++ fmt2 x2 ++ " " ++ fmt2 y2
  let b1 := writePath b path "none" TransitionColor 3 "transition"
  { b1 with places := b1.places ++ [⟨ItemKind.transition, x, width⟩] }

/-- The item loop of `drawTrack`: walks the children left to right,
skips items whose duration is unavailable, draws each remaining item at the
cursor, and advances the cursor by the duration of visible clips and gaps.
Returns the builder state and the final cursor. -/
def drawItems (yOffset height timeScale : ℚ) (trackColor : String) :
    St → ℚ → List Item → St × ℚ
  | b, c, [] => (b, c)
  | b, c, Item.clip name d vis :: rest =>
    match d with
    | none => drawItems yOffset height timeScale trackColor b c rest
    | some dur =>
      let durSeconds := dur.toSeconds
      let x := MarginLeft + c * timeScale
      let width := max (durSeconds * timeScale) MinClipWidth
      let b1 := drawClip b name x yOffset width height trackColor
      drawItems yOffset height timeScale trackColor b1
        (if vis then c + durSeconds else c) rest
  | b, c, Item.gap d vis :: rest =>
    match d with
    | none => drawItems yOffset height timeScale trackColor b c rest
    | some dur =>
      let durSeconds := dur.toSeconds
      let x := MarginLeft + c * timeScale
      let width := max (durSeconds * timeScale) MinClipWidth
      let b1 := drawGap b x yOffset width height
      drawItems yOffset height timeScale trackColor b1
        (if vis then c + durSeconds else c) rest
  | b, c, Item.transition d :: rest =>
    match d with
    | none => drawItems yOffset height timeScale trackColor b c rest
    | some dur =>
      let durSeconds := dur.toSeconds
      let x := MarginLeft + c * timeScale
      let width := max (durSeconds * timeScale) MinClipWidth
      let b1 := drawTransition b x yOffset width height
      drawItems yOffset height timeScale trackColor b1 c rest

/-- `drawTrack`. -/
def drawTrack (width : ℤ) (b : St) (track : Track) (yOffset height timeScale : ℚ) : St :=
  let trackID := "track-" ++ sanitizeID track.name
  let b1 := startGroup b trackID "track"
  let trackColor := if track.kind = TrackKindAudio then AudioTrackColor else VideoTrackColor
  let bgColor := trackColor ++ "33"
  let b2 := writeRect b1 MarginLeft yOffset ((width : ℚ) - MarginLeft - MarginRight)
    height bgColor GridColor "" "track-bg" ""
  let labelText := if track.name = "" then track.kind ++ " Track" else track.name
  let b3 := writeText b2 (MarginLeft - 10) (yOffset + height / 2) labelText "end" "" "track-label"
  let r := drawItems yOffset height timeScale trackColor b3 0 track.children
  endGroup r.1

/-- The ruler's while-loop, with an explicit fuel replacing Go's
unbounded `for time <= durationSeconds` (the fuel chosen by
`drawTimeRuler` strictly exceeds the number of iterations). -/
def rulerLoop (durS interval timeScale rulerY : ℚ) : ℕ → St → ℚ → St
  | 0, b, _ => b
  | n + 1, b, time =>
    if time ≤ durS then
      let x := MarginLeft + time * timeScale
      let b1 := writeLine b x rulerY x (rulerY + RulerHeight) GridColor 1 "tick"
      let b2 := writeText b1 x (rulerY + RulerHeight / 2) (formatTime time)
        "middle" "" "ruler-text"
      rulerLoop durS interval timeScale rulerY n b2 (time + interval)
    else b

/-- Fuel sufficient for the ruler loop. -/
def rulerFuel (durS interval : ℚ) : ℕ := (⌊durS / interval⌋).toNat + 2

/-- `drawTimeRuler`. -/
def drawTimeRuler (width : ℤ) (b : St) (duration : RationalTime) (timeScale : ℚ) : St :=
  let b1 := startGroup b "time-ruler" "ruler"
  let rulerY : ℚ := MarginTop
  let rulerWidth : ℚ := (width : ℚ) - MarginLeft - MarginRight
  let b2 := writeRect b1 MarginLeft rulerY rulerWidth RulerHeight TrackLabelBg
    GridColor "" "ruler-bg" ""
  let durS := duration.toSeconds
  let interval := calculateTimeInterval durS
  let b3 := rulerLoop durS interval timeScale rulerY (rulerFuel durS interval) b2 0
  endGroup b3

/-- The verbatim CSS of `writeStyles`. -/
def cssText : String :=
  "\n    .track-label \x7b\n      font-family: Arial, sans-serif;\n      font-size: 12px;\n      fill: #333;\n      font-weight: bold;\n    \x7d\n    .clip-label \x7b\n      font-family: Arial, sans-serif;\n      font-size: 10px;\n      fill: white;\n      pointer-events: none;\n    \x7d\n    .ruler-text \x7b\n      font-family: Arial, sans-serif;\n      font-size: 10px;\n      fill: #666;\n    \x7d\n    .clip \x7b\n      stroke: #333;\n      stroke-width: 1;\n    \x7d\n    .gap \x7b\n      stroke: #999;\n      stroke-width: 1;\n      stroke-dasharray: 2,2;\n    \x7d\n    .transition \x7b\n      stroke: #333;\n      stroke-width: 2;\n      fill: none;\n    \x7d\n  "

/-- `writeStyles`. -/
def writeStyles (b : St) : St := writeStyle b cssText

/-- Per-track height: available height divided by the number of tracks,
clamped to `[40, 80]` (Go `int` truncation). -/
def trackHeightFor (contentHeight : ℚ) (numTracks : ℕ) : ℤ :=
  let availableHeight := contentHeight - RulerHeight
  let th := ratTrunc (availableHeight / (numTracks : ℚ))
  let th2 := if th > TrackHeightC then TrackHeightC else th
  if th2 < 40 then 40 else th2

/-- Track loop of `Encode`: the enumeration index advances on every child,
non-track children are skipped without drawing. -/
def trackLoop (width : ℤ) (trackHeight : ℤ) (timeScale : ℚ) :
    St → List Child → ℕ → St
  | b, [], _ => b
  | b, Child.other :: rest, i => trackLoop width trackHeight timeScale b rest (i + 1)
  | b, Child.track tr :: rest, i =>
    let yOffset : ℚ := MarginTop + RulerHeight + (((i : ℤ) * trackHeight : ℤ) : ℚ)
    let b1 := drawTrack width b tr yOffset ((trackHeight : ℤ) : ℚ) timeScale
    trackLoop width trackHeight timeScale b1 rest (i + 1)

/-- `Encoder.Encode`: validation checks in source order, then header, style
block, ruler, tracks and footer.  Returns the final builder state and the
error, if any; on error the state holds exactly the bytes written before the
failing check. -/
def encode (width height : ℤ) (t : Option Timeline) : St × Option String :=
  match t with
  | none => (initSt, some "timeline is nil")
  | some t =>
    let b1 := writeHeader initSt width height
    let b2 := writeStyles b1
    match t.duration with
    | .error e => (b2, some ("failed to get timeline duration: " ++ e))
    | .ok duration =>
      if duration.value ≤ 0 then (b2, some "timeline has no duration")
      else
        let contentWidth : ℚ := (width : ℚ) - MarginLeft - MarginRight
        let contentHeight : ℚ := (height : ℚ) - MarginTop - MarginBottom
        match t.tracks with
        | none => (b2, some "timeline has no tracks")
        | some stack =>
          let allTracks := stack.children
          let numTracks := allTracks.length
          if numTracks = 0 then (b2, some "timeline has no tracks")
          else
            let durationSeconds := duration.toSeconds
            let timeScale := contentWidth / durationSeconds
            let b3 := drawTimeRuler width b2 duration timeScale
            let trackHeight := trackHeightFor contentHeight numTracks
            let b4 := trackLoop width trackHeight timeScale b3 allTracks 0
            (writeFooter b4, none)

/-! ## Specification-side definitions used to state the claims -/

/-- The kind tag of an item. -/
def Item.kindOf : Item → ItemKind
  | .clip .. => .clip
  | .gap .. => .gap
  | .transition _ => .transition

/-- The cursor advance of one item, following the spec's words: the duration
of a clip or gap whose visible flag is true (and whose duration is
computable); zero for transitions, invisible items and skipped items. -/
def Item.advance : Item → ℚ
  | .clip _ (some d) v => if v then d.toSeconds else 0
  | .gap (some d) v => if v then d.toSeconds else 0
  | _ => 0

/-- Pure layout function, following the spec's words: walk the items with a
cursor starting at `c`; every item with a computable duration is placed at
`x = marginLeft + cursor * timeScale` with width
`max (duration * timeScale) 5`, then the cursor is advanced by
`Item.advance`.  Returns the placements and the final cursor. -/
def layoutSpec (timeScale : ℚ) : ℚ → List Item → List Placement × ℚ
  | c, [] => ([], c)
  | c, it :: rest =>
    match it.duration with
    | none => layoutSpec timeScale c rest
    | some d =>
      let p : Placement :=
        ⟨it.kindOf, MarginLeft + c * timeScale, max (d.toSeconds * timeScale) MinClipWidth⟩
      let r := layoutSpec timeScale (c + it.advance) rest
      (p :: r.1, r.2)

/-- The times visited by the ruler loop (for the given fuel). -/
def tickList (durS interval : ℚ) : ℕ → ℚ → List ℚ
  | 0, _ => []
  | n + 1, t => if t ≤ durS then t :: tickList durS interval n (t + interval) else []

/-- `b'` extends `b`: only appends to the output, leaves the indentation
unchanged, and opens exactly as many groups as it closes. -/
def Extends (b b' : St) : Prop :=
  (∃ s, b'.out = b.out ++ s) ∧ b'.indent = b.indent ∧
    b'.gOpen + b.gClose = b'.gClose + b.gOpen

/-- Is `pat` a leading block of `l`? -/
def leadBlock : List Char → List Char → Bool
  | [], _ => true
  | _ :: _, [] => false
  | p :: ps, x :: xs => p == x && leadBlock ps xs

/-- Does `pat` occur as a contiguous block of `l`? -/
def occursInL (pat : List Char) : List Char → Bool
  | [] => pat.isEmpty
  | x :: xs => leadBlock pat (x :: xs) || occursInL pat xs

/-- Does `pat` occur as a contiguous substring of `s`? -/
def containsStr (s pat : String) : Bool := occursInL pat.data s.data

/-! ## Helper lemmas -/

/-- Go's truncating conversion agrees with the floor on nonnegative values. -/
theorem ratTrunc_eq_floor (q : ℚ) (h : 0 ≤ q) : ratTrunc q = ⌊q⌋ := by
  rw [ratTrunc, Rat.floor_def]
  exact Int.tdiv_eq_ediv (Rat.num_nonneg.mpr h) (Int.natCast_nonneg _)

/-- Floor of a division by a positive integer. -/
theorem floor_div_pos_int (a : ℚ) (n : ℤ) (hn : 0 < n) : ⌊a / (n : ℚ)⌋ = ⌊a⌋ / n := by
  have hn' : (0 : ℚ) < (n : ℚ) := by exact_mod_cast hn
  have key : ∀ z : ℤ, z ≤ ⌊a / (n : ℚ)⌋ ↔ z ≤ ⌊a⌋ / n := by
    intro z
    rw [Int.le_floor, le_div_iff₀ hn',
      show ((z : ℚ) * n) = ((z * n : ℤ) : ℚ) by push_cast; ring, ← Int.le_floor]
    exact (Int.le_ediv_iff_mul_le hn).symm
  exact le_antisymm ((key _).mp le_rfl) ((key _).mpr le_rfl)

/-- Rounding an integer value is the identity. -/
theorem roundHalfEven_intCast (n : ℤ) : roundHalfEven ((n : ℚ)) = n := by
  unfold roundHalfEven
  rw [Int.floor_intCast]
  norm_num

/-- Evaluation rule for `ratTrunc` on nonnegative values with known floor. -/
theorem ratTrunc_eval (q : ℚ) (n : ℤ) (hq : 0 ≤ q) (h : ⌊q⌋ = n) : ratTrunc q = n := by
  rw [ratTrunc_eq_floor _ hq, h]

/-- Evaluation rule for `fmt1` when ten times the value is a nonnegative
integer. -/
theorem fmt1_eval (q : ℚ) (n : ℤ) (h : q * 10 = (n : ℚ)) (hn : 0 ≤ n) :
    fmt1 q = toString (n.toNat / 10) ++ "." ++ toString (n.toNat % 10) := by
  rw [fmt1, h, roundHalfEven_intCast, if_neg (not_lt.mpr hn)]

/-- Evaluation rule for `fmt2` when a hundred times the value is a
nonnegative integer. -/
theorem fmt2_eval (q : ℚ) (n : ℤ) (h : q * 100 = (n : ℚ)) (hn : 0 ≤ n) :
    fmt2 q = toString (n.toNat / 100) ++ "." ++ decPad2 (n.toNat % 100) := by
  rw [fmt2, h, roundHalfEven_intCast, if_neg (not_lt.mpr hn)]

/-- The character test of `sanitizeID` matches the library's ASCII
classification. -/
theorem isIDChar_spec (c : Char) : isIDChar c = (c.isAlphanum || c == '_' || c == '-') := by
  simp only [isIDChar, Char.isAlphanum, Char.isAlpha, Char.isUpper, Char.isLower, Char.isDigit]
  rcases Decidable.em ('a' ≤ c) with h|h <;> rcases Decidable.em (c ≤ 'z') with h2|h2 <;>
    rcases Decidable.em ('A' ≤ c) with h3|h3 <;> rcases Decidable.em (c ≤ 'Z') with h4|h4 <;>
    rcases Decidable.em ('0' ≤ c) with h5|h5 <;> rcases Decidable.em (c ≤ '9') with h6|h6 <;>
    simp_all [Char.le_def, Bool.or_comm, Bool.or_left_comm, Bool.or_assoc]

/-- The leading-character test of `sanitizeID` matches `Char.isAlpha`. -/
theorem isAsciiLetter_spec (c : Char) : isAsciiLetter c = c.isAlpha := by
  simp only [isAsciiLetter, Char.isAlpha, Char.isUpper, Char.isLower]
  rcases Decidable.em ('a' ≤ c) with h|h <;> rcases Decidable.em (c ≤ 'z') with h2|h2 <;>
    rcases Decidable.em ('A' ≤ c) with h3|h3 <;> rcases Decidable.em (c ≤ 'Z') with h4|h4 <;>
    simp_all [Char.le_def, Bool.or_comm, Bool.or_left_comm, Bool.or_assoc]

/-- Per-character sanitisation, spec form. -/
theorem sanChar_spec (c : Char) :
    sanChar c = if c.isAlphanum || c == '_' || c == '-' then c else '_' := by
  rw [sanChar, isIDChar_spec]

/-- Behaviour of the interval-selection loop on a sorted ladder: the result
is the start value or a ladder member, it is below every qualifying member,
it qualifies whenever some member does, and when no member qualifies it is
the last member (the start value for an empty ladder). -/
theorem calcLoop_spec (ideal : ℚ) :
    ∀ (l : List ℚ) (b : ℚ), List.Pairwise (· ≤ ·) l →
      calcLoop ideal l b ∈ b :: l ∧
      (∀ x ∈ l, ideal ≤ x → calcLoop ideal l b ≤ x) ∧
      ((∃ x ∈ l, ideal ≤ x) → ideal ≤ calcLoop ideal l b) ∧
      ((∀ x ∈ l, x < ideal) → calcLoop ideal l b = l.getLastD b) := by
  intro l
  induction l with
  | nil =>
    intro b _
    refine ⟨List.mem_cons_self _ _, ?_, ?_, fun _ => rfl⟩
    · intro x hx
      exact absurd hx (List.not_mem_nil x)
    · rintro ⟨x, hx, -⟩
      exact absurd hx (List.not_mem_nil x)
  | cons i rest ih =>
    intro b hp
    obtain ⟨hi_rest, hp_rest⟩ := List.pairwise_cons.mp hp
    by_cases hi : i ≥ ideal
    · rw [calcLoop, if_pos hi]
      refine ⟨List.mem_cons_of_mem _ (List.mem_cons_self _ _), ?_, fun _ => hi, ?_⟩
      · intro x hx _
        rcases List.mem_cons.mp hx with rfl | hx
        · exact le_refl x
        · exact hi_rest x hx
      · intro hall
        exact absurd hi (not_le.mpr (hall i (List.mem_cons_self _ _)))
    · rw [calcLoop, if_neg hi]
      obtain ⟨ihmem, ihmin, ihq, ihlast⟩ := ih i hp_rest
      refine ⟨?_, ?_, ?_, ?_⟩
      · rcases List.mem_cons.mp ihmem with h | h
        · rw [h]
          exact List.mem_cons_of_mem _ (List.mem_cons_self _ _)
        · exact List.mem_cons_of_mem _ (List.mem_cons_of_mem _ h)
      · intro x hx hqx
        rcases List.mem_cons.mp hx with rfl | hx
        · exact absurd hqx hi
        · exact ihmin x hx hqx
      · rintro ⟨x, hx, hqx⟩
        rcases List.mem_cons.mp hx with rfl | hx
        · exact absurd hqx hi
        · exact ihq ⟨x, hx, hqx⟩
      · intro hall
        rw [ihlast fun x hx => hall x (List.mem_cons_of_mem _ hx), List.getLastD_cons]

/-- The ladder is sorted. -/
theorem intervals_sorted : List.Pairwise (· ≤ ·) intervalsList := by
  norm_num [intervalsList, List.pairwise_cons]

/-- The interval-selection result: a ladder member, minimal among the
qualifying members, and itself qualifying unless it is the top value. -/
theorem calcInterval_char (d : ℚ) :
    calculateTimeInterval d ∈ intervalsList ∧
    (∀ x ∈ intervalsList, d / 12 ≤ x → calculateTimeInterval d ≤ x) ∧
    (d / 12 ≤ calculateTimeInterval d ∨ calculateTimeInterval d = 3600) := by
  obtain ⟨hmem, hmin, hq, hlast⟩ := calcLoop_spec (d / 12) intervalsList (1/10) intervals_sorted
  rw [show calcLoop (d / 12) intervalsList (1/10) = calculateTimeInterval d from rfl]
    at hmem hmin hq hlast
  refine ⟨?_, hmin, ?_⟩
  · rcases List.mem_cons.mp hmem with h | h
    · rw [h]
      simp only [intervalsList, List.mem_cons]
      norm_num
    · exact h
  · by_cases hex : ∃ x ∈ intervalsList, d / 12 ≤ x
    · exact Or.inl (hq hex)
    · push_neg at hex
      exact Or.inr (by rw [hlast hex]; rfl)

/-- Every ladder value is at most the top value. -/
theorem intervals_le_top : ∀ x ∈ intervalsList, x ≤ 3600 := by
  intro x hx
  simp only [intervalsList, List.mem_cons, List.not_mem_nil, or_false] at hx
  rcases hx with rfl | rfl | rfl | rfl | rfl | rfl | rfl | rfl | rfl | rfl | rfl | rfl
    | rfl | rfl <;> norm_num

/-- Monotonicity of the interval selection. -/
theorem calcInterval_mono {d₁ d₂ : ℚ} (h : d₁ ≤ d₂) :
    calculateTimeInterval d₁ ≤ calculateTimeInterval d₂ := by
  obtain ⟨m1, min1, _⟩ := calcInterval_char d₁
  obtain ⟨m2, _, q2⟩ := calcInterval_char d₂
  rcases q2 with hq | htop
  · exact min1 _ m2 (le_trans (by linarith) hq)
  · rw [htop]
    exact intervals_le_top _ m1

/-! ## Claim theorems -/

/-- C4: `calculateTimeInterval d` is the smallest ladder value `≥ d/12`
(the largest ladder value `3600` when none qualifies), the function is
monotone non-decreasing, `calculateTimeInterval 10 ∈ [0.5, 2]` and
`calculateTimeInterval 3600 ∈ [120, 600]`. -/
theorem calculateTimeInterval_spec :
    (∀ d : ℚ, calculateTimeInterval d ∈ intervalsList ∧
      (∀ x ∈ intervalsList, d / 12 ≤ x → calculateTimeInterval d ≤ x) ∧
      (d / 12 ≤ calculateTimeInterval d ∨ calculateTimeInterval d = 3600)) ∧
    (∀ d₁ d₂ : ℚ, d₁ ≤ d₂ → calculateTimeInterval d₁ ≤ calculateTimeInterval d₂) ∧
    (1/2 ≤ calculateTimeInterval 10 ∧ calculateTimeInterval 10 ≤ 2) ∧
    (120 ≤ calculateTimeInterval 3600 ∧ calculateTimeInterval 3600 ≤ 600) :=
  ⟨calcInterval_char, fun _ _ h => calcInterval_mono h,
    ⟨by norm_num [calculateTimeInterval, intervalsList, calcLoop],
     by norm_num [calculateTimeInterval, intervalsList, calcLoop]⟩,
    ⟨by norm_num [calculateTimeInterval, intervalsList, calcLoop],
     by norm_num [calculateTimeInterval, intervalsList, calcLoop]⟩⟩

/-- Witness for C4 at concrete durations. -/
theorem calculateTimeInterval_spec_witness :
    calculateTimeInterval 10 ≤ calculateTimeInterval 3600 ∧ calculateTimeInterval 10 ≤ 1 :=
  ⟨calculateTimeInterval_spec.2.1 10 3600 (by norm_num),
    (calculateTimeInterval_spec.1 10).2.1 1 (by norm_num [intervalsList]) (by norm_num)⟩

/-- C5: `sanitizeID` maps the empty string to `unnamed`; otherwise each
character maps to itself when it is an ASCII letter, digit, underscore or
hyphen and to a single (uncollapsed) underscore otherwise, and the result is
prefixed with `id_` exactly when its first character is not an ASCII
letter; with the spec's concrete examples. -/
theorem sanitizeID_spec :
    sanitizeID "" = "unnamed" ∧
    sanitizeID "valid_id" = "valid_id" ∧
    sanitizeID "123invalid" = "id_123invalid" ∧
    sanitizeID "clip@#$%" = "clip____" ∧
    ∀ s : String, s ≠ "" →
      sanitizeID s =
        (if ((s.data.map fun c => if c.isAlphanum || c == '_' || c == '-' then c
              else '_').headI).isAlpha
         then String.mk (s.data.map fun c =>
                if c.isAlphanum || c == '_' || c == '-' then c else '_')
         else "id_" ++ String.mk (s.data.map fun c =>
                if c.isAlphanum || c == '_' || c == '-' then c else '_')) := by
  refine ⟨by decide, by decide, by decide, by decide, fun s hs => ?_⟩
  simp only [← sanChar_spec, ← isAsciiLetter_spec]
  rw [sanitizeID, if_neg hs]
  cases hd : s.data with
  | nil =>
    exfalso
    apply hs
    cases s
    simp_all
  | cons a l =>
    simp only [hd, List.map_cons, List.headI]

/-- Witness for C5 at a concrete non-empty string. -/
theorem sanitizeID_spec_witness :
    sanitizeID "x!" =
      (if (("x!".data.map fun c => if c.isAlphanum || c == '_' || c == '-' then c
            else '_').headI).isAlpha
       then String.mk ("x!".data.map fun c =>
              if c.isAlphanum || c == '_' || c == '-' then c else '_')
       else "id_" ++ String.mk ("x!".data.map fun c =>
              if c.isAlphanum || c == '_' || c == '-' then c else '_')) :=
  sanitizeID_spec.2.2.2.2 "x!" (by decide)

/-- `replaceAllCharL` is a character-wise flat map. -/
theorem replaceAllCharL_eq_flatMap (c : Char) (r : List Char) :
    ∀ l : List Char, replaceAllCharL c r l = l.flatMap fun x => if x = c then r else [x] := by
  intro l
  induction l with
  | nil => rfl
  | cons x xs ih =>
    rw [replaceAllCharL, List.flatMap_cons]
    split_ifs with h
    · rw [ih]
    · rw [ih]
      rfl

/-- The four sequential attribute replacements amount to the character-wise
escape map: `&` is replaced first, so the entities later substitutions
introduce are never re-escaped. -/
theorem escAttrL (l : List Char) :
    replaceAllCharL '>' "&gt;".data
        (replaceAllCharL '<' "&lt;".data
          (replaceAllCharL '"' "&quot;".data
            (replaceAllCharL '&' "&amp;".data l))) = l.flatMap escAttrChar := by
  simp only [replaceAllCharL_eq_flatMap, List.flatMap_assoc]
  refine congrArg _ (funext fun x => ?_)
  by_cases h1 : x = '&'
  · subst h1
    rfl
  by_cases h2 : x = '"'
  · subst h2
    rfl
  by_cases h3 : x = '<'
  · subst h3
    rfl
  by_cases h4 : x = '>'
  · subst h4
    rfl
  · simp [escAttrChar, h1, h2, h3, h4]

/-- The three sequential text replacements amount to the character-wise
escape map. -/
theorem escTextL (l : List Char) :
    replaceAllCharL '>' "&gt;".data
        (replaceAllCharL '<' "&lt;".data
          (replaceAllCharL '&' "&amp;".data l)) = l.flatMap escTextChar := by
  simp only [replaceAllCharL_eq_flatMap, List.flatMap_assoc]
  refine congrArg _ (funext fun x => ?_)
  by_cases h1 : x = '&'
  · subst h1
    rfl
  by_cases h3 : x = '<'
  · subst h3
    rfl
  by_cases h4 : x = '>'
  · subst h4
    rfl
  · simp [escTextChar, h1, h3, h4]

/-- `escapeAttr` equals its character-wise specification. -/
theorem escapeAttr_eq_spec (s : String) : escapeAttr s = escapeAttrSpec s := by
  rw [escapeAttr, escapeAttrSpec, replaceAllChar, replaceAllChar, replaceAllChar,
    replaceAllChar]
  exact congrArg String.mk (escAttrL s.data)

/-- `escapeText` equals its character-wise specification. -/
theorem escapeText_eq_spec (s : String) : escapeText s = escapeTextSpec s := by
  rw [escapeText, escapeTextSpec, replaceAllChar, replaceAllChar, replaceAllChar]
  exact congrArg String.mk (escTextL s.data)

/-- No escaped attribute fragment contains a raw quote or angle bracket. -/
theorem escAttrChar_no_raw (x : Char) :
    ∀ c ∈ escAttrChar x, c ≠ '"' ∧ c ≠ '<' ∧ c ≠ '>' := by
  by_cases h1 : x = '&'
  · subst h1
    decide
  by_cases h2 : x = '"'
  · subst h2
    decide
  by_cases h3 : x = '<'
  · subst h3
    decide
  by_cases h4 : x = '>'
  · subst h4
    decide
  · intro c hc
    simp only [escAttrChar, if_neg h1, if_neg h2, if_neg h3, if_neg h4, List.mem_cons,
      List.not_mem_nil, or_false] at hc
    subst hc
    exact ⟨h2, h3, h4⟩

/-- No escaped text fragment contains a raw angle bracket. -/
theorem escTextChar_no_raw (x : Char) :
    ∀ c ∈ escTextChar x, c ≠ '<' ∧ c ≠ '>' := by
  by_cases h1 : x = '&'
  · subst h1
    decide
  by_cases h3 : x = '<'
  · subst h3
    decide
  by_cases h4 : x = '>'
  · subst h4
    decide
  · intro c hc
    simp only [escTextChar, if_neg h1, if_neg h3, if_neg h4, List.mem_cons,
      List.not_mem_nil, or_false] at hc
    subst hc
    exact ⟨h3, h4⟩

/-- C3 counterexample: the `fill` colour string passed to `WriteRect` is
written into the attribute verbatim — the raw quote survives and the escaped
form is absent — although `escapeAttr` would have escaped it; so not every
caller-supplied string placed in an attribute value is escaped. -/
theorem writeRect_fill_not_escaped :
    containsStr (writeRect ⟨"", 1, 0, 0, [], [], []⟩ 0 0 1 1 "x\"y" "" "" "" "").out
        "fill=\"x\"y\"" = true ∧
    containsStr (writeRect ⟨"", 1, 0, 0, [], [], []⟩ 0 0 1 1 "x\"y" "" "" "" "").out
        "x&quot;y" = false ∧
    escapeAttr "x\"y" = "x&quot;y" := by
  have h0 : fmt2 (0:ℚ) = "0.00" := by
    rw [fmt2_eval 0 0 (by norm_num) (by norm_num)]
    rfl
  have h1 : fmt2 (1:ℚ) = "1.00" := by
    rw [fmt2_eval 1 100 (by norm_num) (by norm_num)]
    rfl
  refine ⟨?_, ?_, by decide⟩ <;>
    · simp only [writeRect, h0, h1]
      decide

/-- C3 (amended): text content is escaped character-wise for `&`, `<`, `>`
(`&` first) and `id`/`class` attribute strings are escaped for `&`, `"`,
`<`, `>`, so no raw reserved character survives escaping; but `fill`,
`stroke`, `anchor` and path-data strings are written verbatim (see the
counterexample). -/
theorem escaping_spec :
    (∀ s : String, escapeAttr s = escapeAttrSpec s) ∧
    (∀ s : String, escapeText s = escapeTextSpec s) ∧
    (∀ s : String, ∀ c ∈ (escapeAttr s).data, c ≠ '"' ∧ c ≠ '<' ∧ c ≠ '>') ∧
    (∀ s : String, ∀ c ∈ (escapeText s).data, c ≠ '<' ∧ c ≠ '>') := by
  refine ⟨escapeAttr_eq_spec, escapeText_eq_spec, ?_, ?_⟩
  · intro s c hc
    rw [escapeAttr_eq_spec s, show (escapeAttrSpec s).data = s.data.flatMap escAttrChar
      from rfl] at hc
    obtain ⟨x, _, hcx⟩ := List.mem_flatMap.mp hc
    exact escAttrChar_no_raw x c hcx
  · intro s c hc
    rw [escapeText_eq_spec s, show (escapeTextSpec s).data = s.data.flatMap escTextChar
      from rfl] at hc
    obtain ⟨x, _, hcx⟩ := List.mem_flatMap.mp hc
    exact escTextChar_no_raw x c hcx

/-- Witness for C3 at a concrete string. -/
theorem escaping_spec_witness :
    escapeAttr "a<b" = escapeAttrSpec "a<b" ∧ ('a' ≠ '"' ∧ 'a' ≠ '<' ∧ 'a' ≠ '>') :=
  ⟨escaping_spec.1 "a<b", escaping_spec.2.2.1 "a<b" 'a' (by decide)⟩

/-- C6: `formatTime` renders one-decimal seconds below a minute, `m:ss`
below an hour, and `h:mm:ss` beyond, with minutes and seconds truncated to
integers and zero-padded to two digits; with the spec's concrete examples. -/
theorem formatTime_spec :
    formatTime (1/2) = "0.5s" ∧ formatTime 60 = "1:00" ∧ formatTime 3661 = "1:01:01" ∧
    ∀ s : ℚ, 0 ≤ s →
      (s < 60 → formatTime s = fmt1 s ++ "s") ∧
      (60 ≤ s → s < 3600 →
        formatTime s = toString ⌊s / 60⌋ ++ ":" ++ pad2 (⌊s⌋ % 60)) ∧
      (3600 ≤ s →
        formatTime s = toString ⌊s / 3600⌋ ++ ":" ++ pad2 (⌊s / 60⌋ % 60)
          ++ ":" ++ pad2 (⌊s⌋ % 60)) := by
  refine ⟨?_, ?_, ?_, fun s hs => ⟨?_, ?_, ?_⟩⟩
  · rw [formatTime, if_pos (by norm_num : (1:ℚ)/2 < 60),
      fmt1_eval (1/2) 5 (by norm_num) (by norm_num)]
    rfl
  · rw [formatTime, if_neg (by norm_num : ¬((60:ℚ) < 60)),
      ratTrunc_eval ((60:ℚ)/60) 1 (by norm_num) (by norm_num),
      ratTrunc_eval (60:ℚ) 60 (by norm_num) (by norm_num)]
    rfl
  · rw [formatTime, if_neg (by norm_num : ¬((3661:ℚ) < 60)),
      ratTrunc_eval ((3661:ℚ)/60) 61 (by norm_num) (by norm_num),
      ratTrunc_eval (3661:ℚ) 3661 (by norm_num) (by norm_num)]
    rfl
  · intro h
    rw [formatTime, if_pos h]
  · intro h60 h36
    have hns : ¬ s < 60 := not_lt.mpr h60
    have hq : (0:ℚ) ≤ s / 60 := by positivity
    have hm : ratTrunc (s / 60) = ⌊s / 60⌋ := ratTrunc_eq_floor _ hq
    have hfl : ⌊s / 60⌋ < 60 := by
      rw [Int.floor_lt]
      push_cast
      rw [div_lt_iff₀ (by norm_num : (0:ℚ) < 60)]
      linarith
    have hsec : (ratTrunc s).tmod 60 = ⌊s⌋ % 60 := by
      rw [ratTrunc_eq_floor _ hs]
      exact Int.tmod_eq_emod (Int.floor_nonneg.mpr hs) (by norm_num)
    rw [formatTime, if_neg hns]
    simp only [hm, hsec]
    rw [if_pos hfl]
  · intro h36
    have h60 : (60:ℚ) ≤ s := by linarith
    have hns : ¬ s < 60 := not_lt.mpr h60
    have hq : (0:ℚ) ≤ s / 60 := by positivity
    have hm : ratTrunc (s / 60) = ⌊s / 60⌋ := ratTrunc_eq_floor _ hq
    have hge : (60:ℤ) ≤ ⌊s / 60⌋ := by
      rw [Int.le_floor]
      push_cast
      rw [le_div_iff₀ (by norm_num : (0:ℚ) < 60)]
      linarith
    have hnlt : ¬ ⌊s / 60⌋ < 60 := not_lt.mpr hge
    have hmnn : (0:ℤ) ≤ ⌊s / 60⌋ := le_trans (by norm_num) hge
    have hhours : (⌊s / 60⌋).tdiv 60 = ⌊s / 3600⌋ := by
      rw [Int.tdiv_eq_ediv hmnn (by norm_num), ← floor_div_pos_int (s/60) 60 (by norm_num)]
      congr 1
      push_cast
      ring
    have hm2 : (⌊s / 60⌋).tmod 60 = ⌊s / 60⌋ % 60 := Int.tmod_eq_emod hmnn (by norm_num)
    have hsec : (ratTrunc s).tmod 60 = ⌊s⌋ % 60 := by
      rw [ratTrunc_eq_floor _ hs]
      exact Int.tmod_eq_emod (Int.floor_nonneg.mpr hs) (by norm_num)
    rw [formatTime, if_neg hns]
    simp only [hm, hsec]
    rw [if_neg hnlt]
    simp only [hhours, hm2]

/-- Witness for C6 at concrete times in each branch. -/
theorem formatTime_spec_witness :
    formatTime 75 = toString ⌊(75:ℚ) / 60⌋ ++ ":" ++ pad2 (⌊(75:ℚ)⌋ % 60) ∧
    formatTime 7265 = toString ⌊(7265:ℚ) / 3600⌋ ++ ":" ++ pad2 (⌊(7265:ℚ) / 60⌋ % 60)
      ++ ":" ++ pad2 (⌊(7265:ℚ)⌋ % 60) :=
  ⟨(formatTime_spec.2.2.2 75 (by norm_num)).2.1 (by norm_num) (by norm_num),
   (formatTime_spec.2.2.2 7265 (by norm_num)).2.2 (by norm_num)⟩

/-- C1: the validation checks of `Encode` fire in source order — nil
timeline, duration-computation failure (wrapping the underlying error),
non-positive duration, absent track container, empty track container — each
with its distinct message, and in every failing case the output holds at
most the document header and the style block (no group, line, text or item
markup was emitted). -/
theorem encode_fail_fast :
    (∀ w h : ℤ, encode w h none = (initSt, some "timeline is nil")) ∧
    (∀ w h : ℤ, ∀ e : String, ∀ tr : Option Stack,
      encode w h (some ⟨.error e, tr⟩) =
        (writeStyles (writeHeader initSt w h), some ("failed to get timeline duration: " ++ e))) ∧
    (∀ w h : ℤ, ∀ d : RationalTime, ∀ tr : Option Stack, d.value ≤ 0 →
      encode w h (some ⟨.ok d, tr⟩) =
        (writeStyles (writeHeader initSt w h), some "timeline has no duration")) ∧
    (∀ w h : ℤ, ∀ d : RationalTime, 0 < d.value →
      encode w h (some ⟨.ok d, none⟩) =
        (writeStyles (writeHeader initSt w h), some "timeline has no tracks")) ∧
    (∀ w h : ℤ, ∀ d : RationalTime, 0 < d.value →
      encode w h (some ⟨.ok d, some ⟨[]⟩⟩) =
        (writeStyles (writeHeader initSt w h), some "timeline has no tracks")) ∧
    (∀ w h : ℤ, (writeStyles (writeHeader initSt w h)).gOpen = 0 ∧
      (writeStyles (writeHeader initSt w h)).lines = [] ∧
      (writeStyles (writeHeader initSt w h)).texts = [] ∧
      (writeStyles (writeHeader initSt w h)).places = []) := by
  refine ⟨fun _ _ => rfl, fun _ _ _ _ => rfl, ?_, ?_, ?_, fun _ _ => ⟨rfl, rfl, rfl, rfl⟩⟩
  · intro w h d tr hle
    simp only [encode]
    rw [if_pos hle]
  · intro w h d hd
    simp only [encode]
    rw [if_neg (not_le.mpr hd)]
  · intro w h d hd
    simp only [encode]
    rw [if_neg (not_le.mpr hd)]
    rfl

/-- Witness for C1 at concrete invalid timelines. -/
theorem encode_fail_fast_witness :
    encode 800 400 (some ⟨.ok ⟨0, 24⟩, some ⟨[]⟩⟩) =
      (writeStyles (writeHeader initSt 800 400), some "timeline has no duration") ∧
    encode 800 400 (some ⟨.ok ⟨10, 1⟩, none⟩) =
      (writeStyles (writeHeader initSt 800 400), some "timeline has no tracks") :=
  ⟨encode_fail_fast.2.2.1 800 400 ⟨0, 24⟩ (some ⟨[]⟩) (by decide),
   encode_fail_fast.2.2.2.1 800 400 ⟨10, 1⟩ (by decide)⟩

/-- `writeRect` never records a placement. -/
theorem writeRect_places (b : St) (x y w h : ℚ) (f s i cl t : String) :
    (writeRect b x y w h f s i cl t).places = b.places := by
  rw [writeRect]
  split_ifs <;> rfl

/-- `drawClip` records exactly one clip placement. -/
theorem drawClip_places (b : St) (name : String) (x y w h : ℚ) (col : String) :
    (drawClip b name x y w h col).places = b.places ++ [⟨ItemKind.clip, x, w⟩] := by
  rw [drawClip]
  split_ifs <;> simp [writeText, writeRect_places]

/-- `drawGap` records exactly one gap placement. -/
theorem drawGap_places (b : St) (x y w h : ℚ) :
    (drawGap b x y w h).places = b.places ++ [⟨ItemKind.gap, x, w⟩] := by
  rw [drawGap]
  simp [writeRect_places]

/-- `drawTransition` records exactly one transition placement. -/
theorem drawTransition_places (b : St) (x y w h : ℚ) :
    (drawTransition b x y w h).places = b.places ++ [⟨ItemKind.transition, x, w⟩] := rfl

/-- Advancing by `Item.advance` is the conditional advance of the loop. -/
theorem advance_ite (c s : ℚ) (v : Bool) :
    c + (if v then s else 0) = if v then c + s else c := by
  split_ifs <;> ring

/-- The item loop realises the pure layout function: the recorded placements
are those of `layoutSpec` and the final cursors agree. -/
theorem drawItems_layoutSpec (yo h ts : ℚ) (col : String) :
    ∀ (items : List Item) (b : St) (c : ℚ),
      (drawItems yo h ts col b c items).1.places = b.places ++ (layoutSpec ts c items).1 ∧
      (drawItems yo h ts col b c items).2 = (layoutSpec ts c items).2 := by
  intro items
  induction items with
  | nil =>
    intro b c
    exact ⟨(List.append_nil _).symm, rfl⟩
  | cons it rest ih =>
    intro b c
    cases it with
    | clip name d vis =>
      cases d with
      | none =>
        simpa only [drawItems, layoutSpec, Item.duration] using ih b c
      | some dur =>
        obtain ⟨ihp, ihc⟩ := ih
          (drawClip b name (MarginLeft + c * ts) yo
            (max (dur.toSeconds * ts) MinClipWidth) h col)
          (if vis then c + dur.toSeconds else c)
        simp only [drawItems, layoutSpec, Item.duration, Item.kindOf, Item.advance,
          advance_ite]
        refine ⟨?_, ihc⟩
        rw [ihp, drawClip_places, List.append_assoc]
        rfl
    | gap d vis =>
      cases d with
      | none =>
        simpa only [drawItems, layoutSpec, Item.duration] using ih b c
      | some dur =>
        obtain ⟨ihp, ihc⟩ := ih
          (drawGap b (MarginLeft + c * ts) yo (max (dur.toSeconds * ts) MinClipWidth) h)
          (if vis then c + dur.toSeconds else c)
        simp only [drawItems, layoutSpec, Item.duration, Item.kindOf, Item.advance,
          advance_ite]
        refine ⟨?_, ihc⟩
        rw [ihp, drawGap_places, List.append_assoc]
        rfl
    | transition d =>
      cases d with
      | none =>
        simpa only [drawItems, layoutSpec, Item.duration] using ih b c
      | some dur =>
        obtain ⟨ihp, ihc⟩ := ih
          (drawTransition b (MarginLeft + c * ts) yo
            (max (dur.toSeconds * ts) MinClipWidth) h)
          c
        simp only [drawItems, layoutSpec, Item.duration, Item.kindOf, Item.advance,
          add_zero]
        refine ⟨?_, ihc⟩
        rw [ihp, drawTransition_places, List.append_assoc]
        rfl

/-- `layoutSpec` over an appended item list: the suffix is laid out from the
prefix's final cursor. -/
theorem layoutSpec_append (ts : ℚ) :
    ∀ (l₁ l₂ : List Item) (c : ℚ),
      layoutSpec ts c (l₁ ++ l₂) =
        ((layoutSpec ts c l₁).1 ++ (layoutSpec ts (layoutSpec ts c l₁).2 l₂).1,
         (layoutSpec ts (layoutSpec ts c l₁).2 l₂).2) := by
  intro l₁
  induction l₁ with
  | nil =>
    intro l₂ c
    simp [layoutSpec]
  | cons it rest ih =>
    intro l₂ c
    cases hd : it.duration with
    | none =>
      simp only [List.cons_append, layoutSpec, hd]
      exact ih l₂ c
    | some dur =>
      simp only [List.cons_append, layoutSpec, hd]
      rw [show rest.append l₂ = rest ++ l₂ from rfl, ih l₂ (c + it.advance)]

/-- A transition leaves the layout cursor unchanged. -/
theorem layoutSpec_transition_cursor (ts c : ℚ) (d : Option RationalTime) :
    (layoutSpec ts c [Item.transition d]).2 = c := by
  cases d <;> simp [layoutSpec, Item.duration, Item.advance]

/-- One item's cursor advance is nonnegative when its duration is. -/
theorem advance_nonneg (it : Item)
    (h : ∀ rt, it.duration = some rt → 0 ≤ rt.toSeconds) : 0 ≤ it.advance := by
  cases it with
  | clip name d vis =>
    cases d with
    | none => simp [Item.advance]
    | some rt =>
      have := h rt rfl
      cases vis <;> simp [Item.advance] <;> linarith
  | gap d vis =>
    cases d with
    | none => simp [Item.advance]
    | some rt =>
      have := h rt rfl
      cases vis <;> simp [Item.advance] <;> linarith
  | transition d => simp [Item.advance]

/-- The layout cursor never decreases when all computable durations are
nonnegative. -/
theorem layoutSpec_cursor_mono (ts : ℚ) :
    ∀ (items : List Item) (c : ℚ),
      (∀ it ∈ items, ∀ rt, it.duration = some rt → 0 ≤ rt.toSeconds) →
      c ≤ (layoutSpec ts c items).2 := by
  intro items
  induction items with
  | nil =>
    intro c _
    exact le_refl c
  | cons it rest ih =>
    intro c hnn
    have hadv : 0 ≤ it.advance :=
      advance_nonneg it (hnn it (List.mem_cons_self _ _))
    have hrest : ∀ x ∈ rest, ∀ rt, x.duration = some rt → 0 ≤ rt.toSeconds :=
      fun x hx => hnn x (List.mem_cons_of_mem _ hx)
    cases hd : it.duration with
    | none =>
      simp only [layoutSpec, hd]
      exact ih c hrest
    | some dur =>
      simp only [layoutSpec, hd]
      calc c ≤ c + it.advance := by linarith
        _ ≤ (layoutSpec ts (c + it.advance) rest).2 := ih _ hrest

/-- Every placement generated by `layoutSpec` comes from an item with a
computable duration, carries its kind, and has the clamped width. -/
theorem layoutSpec_mem (ts : ℚ) :
    ∀ (items : List Item) (c : ℚ) (p : Placement),
      p ∈ (layoutSpec ts c items).1 →
      ∃ it ∈ items, ∃ rt, it.duration = some rt ∧ p.kind = it.kindOf ∧
        p.w = max (rt.toSeconds * ts) MinClipWidth := by
  intro items
  induction items with
  | nil =>
    intro c p hp
    simp [layoutSpec] at hp
  | cons it rest ih =>
    intro c p hp
    cases hd : it.duration with
    | none =>
      rw [layoutSpec, hd] at hp
      obtain ⟨x, hx, hrt⟩ := ih c p hp
      exact ⟨x, List.mem_cons_of_mem _ hx, hrt⟩
    | some dur =>
      rw [layoutSpec, hd] at hp
      rcases List.mem_cons.mp hp with rfl | hp
      · exact ⟨it, List.mem_cons_self _ _, dur, hd, rfl, rfl⟩
      · obtain ⟨x, hx, hrt⟩ := ih _ p hp
        exact ⟨x, List.mem_cons_of_mem _ hx, hrt⟩

/-- `drawTrack` lays out its items with the cursor starting at 0. -/
theorem drawTrack_places (w : ℤ) (b : St) (tr : Track) (yo h ts : ℚ) :
    (drawTrack w b tr yo h ts).places = b.places ++ (layoutSpec ts 0 tr.children).1 := by
  simp only [drawTrack, endGroup]
  rw [(drawItems_layoutSpec _ _ _ _ tr.children _ 0).1]
  simp [writeText, writeRect_places, startGroup]

/-- C2 (amended): within one track the cursor starts at 0; every item with a
computable duration is placed at `x = marginLeft + cursor * timeScale`; the
cursor advances by the item's duration exactly for visible clips and gaps
(`Item.advance`); a transition anywhere in the sequence changes neither the
final cursor nor the placements of subsequent items; and the cursor is
monotone non-decreasing provided every computable item duration is
nonnegative (a visible clip or gap with negative duration moves it
backwards — see the counterexample). -/
theorem drawItems_layout :
    (∀ (yo h ts : ℚ) (col : String) (b : St) (c : ℚ) (items : List Item),
      (drawItems yo h ts col b c items).1.places = b.places ++ (layoutSpec ts c items).1 ∧
      (drawItems yo h ts col b c items).2 = (layoutSpec ts c items).2) ∧
    (∀ (w : ℤ) (b : St) (tr : Track) (yo h ts : ℚ),
      (drawTrack w b tr yo h ts).places = b.places ++ (layoutSpec ts 0 tr.children).1) ∧
    (∀ (ts c : ℚ) (d : Option RationalTime) (pre post : List Item),
      (layoutSpec ts c (pre ++ Item.transition d :: post)).2
          = (layoutSpec ts c (pre ++ post)).2 ∧
      (layoutSpec ts c (pre ++ Item.transition d :: post)).1
          = (layoutSpec ts c pre).1
              ++ (layoutSpec ts (layoutSpec ts c pre).2 [Item.transition d]).1
              ++ (layoutSpec ts (layoutSpec ts c pre).2 post).1) ∧
    (∀ (ts : ℚ) (l₁ l₂ : List Item) (c : ℚ),
      (∀ it ∈ l₂, ∀ rt, it.duration = some rt → 0 ≤ rt.toSeconds) →
      (layoutSpec ts c l₁).2 ≤ (layoutSpec ts c (l₁ ++ l₂)).2) := by
  refine ⟨fun yo h ts col b c items => drawItems_layoutSpec yo h ts col items b c,
    drawTrack_places, ?_, ?_⟩
  · intro ts c d pre post
    have hsplit : pre ++ Item.transition d :: post = (pre ++ [Item.transition d]) ++ post := by
      simp
    have hcur : (layoutSpec ts c (pre ++ [Item.transition d])).2 = (layoutSpec ts c pre).2 := by
      rw [layoutSpec_append ts pre [Item.transition d]]
      exact layoutSpec_transition_cursor ts _ d
    constructor
    · rw [hsplit, layoutSpec_append ts (pre ++ [Item.transition d]) post,
        layoutSpec_append ts pre post, hcur]
    · rw [hsplit, layoutSpec_append ts (pre ++ [Item.transition d]) post,
        layoutSpec_append ts pre [Item.transition d]]
      simp only [layoutSpec_transition_cursor, List.append_assoc]
  · intro ts l₁ l₂ c hnn
    rw [layoutSpec_append]
    exact layoutSpec_cursor_mono ts l₂ _ hnn

/-- C2 counterexample: a visible clip with negative duration moves the
cursor backwards — the cursor after the loop is below its starting value, so
the cursor is not monotone non-decreasing as stated. -/
theorem drawItems_cursor_decreases :
    (drawItems 0 40 1 VideoTrackColor initSt 0
      [Item.clip "a" (some ⟨-1, 1⟩) true]).2 < 0 := by
  simp only [drawItems, RationalTime.toSeconds]
  norm_num

/-- Witness for C2: the prefix-monotonicity applied to a concrete track. -/
theorem drawItems_layout_witness :
    (layoutSpec 1 0 [Item.clip "a" (some ⟨2, 1⟩) true]).2
      ≤ (layoutSpec 1 0 ([Item.clip "a" (some ⟨2, 1⟩) true]
          ++ [Item.gap (some ⟨3, 1⟩) true])).2 :=
  drawItems_layout.2.2.2 1 [Item.clip "a" (some ⟨2, 1⟩) true]
    [Item.gap (some ⟨3, 1⟩) true] 0 (by
      intro it hit rt hrt
      simp only [List.mem_singleton] at hit
      subst hit
      simp only [Item.duration, Option.some.injEq] at hrt
      subst hrt
      norm_num [RationalTime.toSeconds])

/-- C8: every rendered item placement (clip, gap or transition) has width
`max (durationSeconds * timeScale) 5`, hence always at least the minimum
width 5, also for zero or negative durations. -/
theorem drawItems_width_clamped :
    ∀ (yo h ts : ℚ) (col : String) (c : ℚ) (items : List Item) (p : Placement),
      p ∈ (drawItems yo h ts col initSt c items).1.places →
      MinClipWidth ≤ p.w ∧
      ∃ it ∈ items, ∃ rt, it.duration = some rt ∧ p.kind = it.kindOf ∧
        p.w = max (rt.toSeconds * ts) MinClipWidth := by
  intro yo h ts col c items p hp
  rw [(drawItems_layoutSpec yo h ts col items initSt c).1,
    show initSt.places = [] from rfl, List.nil_append] at hp
  obtain ⟨it, hit, rt, hrt, hk, hw⟩ := layoutSpec_mem ts items c p hp
  exact ⟨hw ▸ le_max_right _ _, it, hit, rt, hrt, hk, hw⟩

/-- Witness for C8: a clip of negative duration still gets the clamped
width. -/
theorem drawItems_width_clamped_witness :
    MinClipWidth ≤
      (⟨ItemKind.clip, MarginLeft + 0 * 1,
        max (RationalTime.toSeconds ⟨-3, 1⟩ * 1) MinClipWidth⟩ : Placement).w ∧
    ∃ it ∈ [Item.clip "n" (some ⟨-3, 1⟩) true], ∃ rt, it.duration = some rt ∧
      (⟨ItemKind.clip, MarginLeft + 0 * 1,
        max (RationalTime.toSeconds ⟨-3, 1⟩ * 1) MinClipWidth⟩ : Placement).kind
          = it.kindOf ∧
      (⟨ItemKind.clip, MarginLeft + 0 * 1,
        max (RationalTime.toSeconds ⟨-3, 1⟩ * 1) MinClipWidth⟩ : Placement).w
          = max (rt.toSeconds * 1) MinClipWidth :=
  drawItems_width_clamped 0 40 1 VideoTrackColor 0 [Item.clip "n" (some ⟨-3, 1⟩) true]
    ⟨ItemKind.clip, MarginLeft + 0 * 1,
      max (RationalTime.toSeconds ⟨-3, 1⟩ * 1) MinClipWidth⟩ (by
        simp [drawItems, drawClip_places, initSt])

/-- Every ladder value is positive, so the selected interval is. -/
theorem calcInterval_pos (d : ℚ) : 0 < calculateTimeInterval d := by
  have h := (calcInterval_char d).1
  simp only [intervalsList, List.mem_cons, List.not_mem_nil, or_false] at h
  rcases h with h|h|h|h|h|h|h|h|h|h|h|h|h|h <;> rw [h] <;> norm_num

/-- The ruler loop's recorded lines and labels are exactly one tick line and
one centred label per visited time. -/
theorem rulerLoop_ghost (durS i ts rY : ℚ) :
    ∀ (n : ℕ) (b : St) (t : ℚ),
      (rulerLoop durS i ts rY n b t).lines
        = b.lines ++ (tickList durS i n t).map
            (fun q => (MarginLeft + q * ts, rY, MarginLeft + q * ts,
              rY + RulerHeight, "tick")) ∧
      (rulerLoop durS i ts rY n b t).texts
        = b.texts ++ (tickList durS i n t).map
            (fun q => (MarginLeft + q * ts, rY + RulerHeight / 2, formatTime q,
              "middle", "ruler-text")) := by
  intro n
  induction n with
  | zero =>
    intro b t
    simp [rulerLoop, tickList]
  | succ m ih =>
    intro b t
    by_cases h : t ≤ durS
    · simp only [rulerLoop, tickList, if_pos h, List.map_cons]
      obtain ⟨hl, ht⟩ := ih
        (writeText
          (writeLine b (MarginLeft + t * ts) rY (MarginLeft + t * ts)
            (rY + RulerHeight) GridColor 1 "tick")
          (MarginLeft + t * ts) (rY + RulerHeight / 2) (formatTime t)
          "middle" "" "ruler-text")
        (t + i)
    
      constructor
      · rw [hl]
        simp [writeLine, writeText]
      · rw [ht]
        simp [writeLine, writeText]
    · simp [rulerLoop, tickList, if_neg h]

/-- The tick list is empty once the time has passed the total duration. -/
theorem tickList_stop (durS i t : ℚ) (h : ¬ t ≤ durS) :
    ∀ n, tickList durS i n t = [] := by
  intro n
  cases n with
  | zero => rfl
  | succ m => simp [tickList, if_neg h]

/-- With a positive interval and enough fuel, the tick list starting at
`t ≤ durS` visits exactly the times `t + k * interval` for
`k = 0, …, ⌊(durS − t)/interval⌋`. -/
theorem tickList_eq (durS i : ℚ) (hi : 0 < i) :
    ∀ (n : ℕ) (t : ℚ), t ≤ durS →
      (⌊(durS - t) / i⌋.toNat + 1 ≤ n) →
      tickList durS i n t
        = (List.range (⌊(durS - t) / i⌋.toNat + 1)).map (fun k : ℕ => t + k * i) := by
  intro n
  induction n with
  | zero =>
    intro t ht hn
    exact absurd hn (by omega)
  | succ m ih =>
    intro t ht hn
    have hM0 : 0 ≤ ⌊(durS - t) / i⌋ :=
      Int.floor_nonneg.mpr (div_nonneg (by linarith) hi.le)
    have hhead : ∀ N : ℕ,
        (List.range (N + 1)).map (fun k : ℕ => t + k * i)
          = t :: (List.range N).map (fun k : ℕ => (t + i) + k * i) := by
      intro N
      rw [List.range_succ_eq_map, List.map_cons, List.map_map]
      refine congrArg₂ List.cons (by push_cast; ring) (List.map_congr_left ?_)
      intro a _
      show t + ((a + 1 : ℕ) : ℚ) * i = (t + i) + a * i
      push_cast
      ring
    rw [tickList, if_pos ht, hhead]
    by_cases h2 : t + i ≤ durS
    · have hM1 : (1:ℤ) ≤ ⌊(durS - t) / i⌋ := by
        rw [Int.le_floor]
        push_cast
        rw [le_div_iff₀ hi]
        linarith
      have hsub : ⌊(durS - (t + i)) / i⌋ = ⌊(durS - t) / i⌋ - 1 := by
        rw [show (durS - (t + i)) / i = (durS - t) / i - ((1:ℤ) : ℚ) by
          push_cast
          field_simp
          try ring, Int.floor_sub_int]
      have hrange : ⌊(durS - t) / i⌋.toNat = ⌊(durS - (t + i)) / i⌋.toNat + 1 := by
        rw [hsub]
        omega
      rw [ih (t + i) h2 (by omega), hrange]
    · have hM : ⌊(durS - t) / i⌋ = 0 := by
        rw [Int.floor_eq_zero_iff]
        refine Set.mem_Ico.mpr ⟨div_nonneg (by linarith) hi.le, ?_⟩
        rw [div_lt_one hi]
        linarith
      rw [tickList_stop durS i (t + i) h2, hM]
      rfl

/-- `writeRect` with an empty caption records no line. -/
theorem writeRect_lines (b : St) (x y w h : ℚ) (f s i cl t : String) :
    (writeRect b x y w h f s i cl t).lines = b.lines := by
  rw [writeRect]
  split_ifs <;> rfl

/-- `writeRect` with an empty caption records no label. -/
theorem writeRect_empty_texts (b : St) (x y w h : ℚ) (f s i cl : String) :
    (writeRect b x y w h f s i cl "").texts = b.texts := rfl

/-- C9: the ruler emits one tick line and one centred time label at each
time `t = k * interval` for `k = 0, 1, 2, …` while `t ≤ totalDuration`
(inclusive), each at `x = marginLeft + t * timeScale`; a multiple of the
interval receives a tick exactly when it does not exceed the total
duration, so no tick is emitted past the total duration. -/
theorem drawTimeRuler_ticks :
    ∀ (w : ℤ) (b : St) (dur : RationalTime) (ts : ℚ),
      0 ≤ dur.toSeconds →
      ((drawTimeRuler w b dur ts).lines
        = b.lines ++ (List.range
            ((⌊dur.toSeconds / calculateTimeInterval dur.toSeconds⌋).toNat + 1)).map
            (fun k : ℕ =>
              (MarginLeft + ((k : ℚ) * calculateTimeInterval dur.toSeconds) * ts, MarginTop,
               MarginLeft + ((k : ℚ) * calculateTimeInterval dur.toSeconds) * ts,
               MarginTop + RulerHeight, "tick"))) ∧
      ((drawTimeRuler w b dur ts).texts
        = b.texts ++ (List.range
            ((⌊dur.toSeconds / calculateTimeInterval dur.toSeconds⌋).toNat + 1)).map
            (fun k : ℕ =>
              (MarginLeft + ((k : ℚ) * calculateTimeInterval dur.toSeconds) * ts,
               MarginTop + RulerHeight / 2,
               formatTime ((k : ℚ) * calculateTimeInterval dur.toSeconds),
               "middle", "ruler-text"))) ∧
      (∀ k : ℕ, (k : ℚ) * calculateTimeInterval dur.toSeconds ≤ dur.toSeconds ↔
        k ≤ (⌊dur.toSeconds / calculateTimeInterval dur.toSeconds⌋).toNat) := by
  intro w b dur ts hnn
  have hi := calcInterval_pos dur.toSeconds
  have hfuel : ⌊(dur.toSeconds - 0) / calculateTimeInterval dur.toSeconds⌋.toNat + 1
      ≤ rulerFuel dur.toSeconds (calculateTimeInterval dur.toSeconds) := by
    rw [rulerFuel, sub_zero]
    omega
  have htl := tickList_eq dur.toSeconds (calculateTimeInterval dur.toSeconds) hi
    (rulerFuel dur.toSeconds (calculateTimeInterval dur.toSeconds)) 0 hnn hfuel
  rw [sub_zero] at htl
  have htl' : tickList dur.toSeconds (calculateTimeInterval dur.toSeconds)
      (rulerFuel dur.toSeconds (calculateTimeInterval dur.toSeconds)) 0
      = (List.range ((⌊dur.toSeconds / calculateTimeInterval dur.toSeconds⌋).toNat + 1)).map
          (fun k : ℕ => (k : ℚ) * calculateTimeInterval dur.toSeconds) := by
    rw [htl]
    exact List.map_congr_left fun a _ => by rw [zero_add]
  have hM0 : (0:ℤ) ≤ ⌊dur.toSeconds / calculateTimeInterval dur.toSeconds⌋ :=
    Int.floor_nonneg.mpr (div_nonneg hnn hi.le)
  refine ⟨?_, ?_, ?_⟩
  · simp only [drawTimeRuler, endGroup]
    rw [(rulerLoop_ghost _ _ _ _ _ _ _).1, htl', List.map_map, writeRect_lines]
    simp [startGroup, Function.comp]
  · simp only [drawTimeRuler, endGroup]
    rw [(rulerLoop_ghost _ _ _ _ _ _ _).2, htl', List.map_map, writeRect_empty_texts]
    simp [startGroup, Function.comp]
  · intro k
    constructor
    · intro hk
      have h1 : (k:ℚ) ≤ dur.toSeconds / calculateTimeInterval dur.toSeconds :=
        (le_div_iff₀ hi).mpr hk
      have h2 : (k:ℤ) ≤ ⌊dur.toSeconds / calculateTimeInterval dur.toSeconds⌋ :=
        Int.le_floor.mpr (by exact_mod_cast h1)
      omega
    · intro hk
      have hkz : (k:ℤ) ≤ ⌊dur.toSeconds / calculateTimeInterval dur.toSeconds⌋ := by
        omega
      have h1 : ((k:ℤ):ℚ) ≤ (⌊dur.toSeconds / calculateTimeInterval dur.toSeconds⌋ : ℚ) :=
        by exact_mod_cast hkz
      have h2 : (k:ℚ) ≤ dur.toSeconds / calculateTimeInterval dur.toSeconds := by
        exact_mod_cast le_trans h1 (Int.floor_le _)
      exact (le_div_iff₀ hi).mp h2

/-- Witness for C9: on a ten-second timeline the fifth multiple of the
interval is within the duration and so receives a tick. -/
theorem drawTimeRuler_ticks_witness :
    (5 : ℚ) * calculateTimeInterval (RationalTime.toSeconds ⟨10, 1⟩)
        ≤ RationalTime.toSeconds ⟨10, 1⟩ ↔
      5 ≤ (⌊RationalTime.toSeconds ⟨10, 1⟩
        / calculateTimeInterval (RationalTime.toSeconds ⟨10, 1⟩)⌋).toNat :=
  (drawTimeRuler_ticks 1200 initSt ⟨10, 1⟩ 1
    (by norm_num [RationalTime.toSeconds])).2.2 5

/-- Appending on the right preserves being an extension of `a`. -/
theorem append_chain {a u : String} (hu : ∃ s, u = a ++ s) (v : String) :
    ∃ s, u ++ v = a ++ s := by
  obtain ⟨s, rfl⟩ := hu
  exact ⟨s ++ v, String.append_assoc a s v⟩

/-- Every string extends itself. -/
theorem append_stop (a : String) : ∃ s, a = a ++ s :=
  ⟨"", (String.append_empty a).symm⟩

/-- `Extends` is reflexive. -/
theorem extends_refl (b : St) : Extends b b :=
  ⟨append_stop b.out, rfl, Nat.add_comm _ _⟩

/-- `Extends` is transitive. -/
theorem extends_trans {a b c : St} (h1 : Extends a b) (h2 : Extends b c) :
    Extends a c := by
  obtain ⟨⟨s1, hs1⟩, hi1, hg1⟩ := h1
  obtain ⟨⟨s2, hs2⟩, hi2, hg2⟩ := h2
  exact ⟨⟨s1 ++ s2, by rw [hs2, hs1, String.append_assoc]⟩, by rw [hi2, hi1], by omega⟩

/-- `writeText` only appends output. -/
theorem extends_writeText (b : St) (x y : ℚ) (t a i cl : String) :
    Extends b (writeText b x y t a i cl) :=
  ⟨⟨_, rfl⟩, rfl, Nat.add_comm _ _⟩

/-- `writeLine` only appends output. -/
theorem extends_writeLine (b : St) (x1 y1 x2 y2 : ℚ) (s : String) (sw : ℚ) (cl : String) :
    Extends b (writeLine b x1 y1 x2 y2 s sw cl) :=
  ⟨⟨_, rfl⟩, rfl, Nat.add_comm _ _⟩

/-- `writePath` only appends output. -/
theorem extends_writePath (b : St) (d f s : String) (sw : ℚ) (cl : String) :
    Extends b (writePath b d f s sw cl) :=
  ⟨⟨_, rfl⟩, rfl, Nat.add_comm _ _⟩

/-- `writeStyle` only appends output. -/
theorem extends_writeStyle (b : St) (css : String) :
    Extends b (writeStyle b css) :=
  ⟨⟨_, rfl⟩, rfl, Nat.add_comm _ _⟩

/-- `writeRect` only appends output. -/
theorem extends_writeRect (b : St) (x y w h : ℚ) (f s i cl t : String) :
    Extends b (writeRect b x y w h f s i cl t) := by
  rw [writeRect]
  by_cases ht : t = ""
  · rw [if_pos ht]
    exact ⟨⟨_, rfl⟩, rfl, Nat.add_comm _ _⟩
  · rw [if_neg ht]
    refine extends_trans ?_ (extends_writeText _ _ _ _ _ _ _)
    exact ⟨⟨_, rfl⟩, rfl, Nat.add_comm _ _⟩

/-- `drawClip` only appends output. -/
theorem extends_drawClip (b : St) (n : String) (x y w h : ℚ) (col : String) :
    Extends b (drawClip b n x y w h col) := by
  rw [drawClip]
  by_cases hw : w > 30
  · rw [if_pos hw]
    exact extends_trans
      (extends_writeRect b x (y + 2) w (h - 2 * 2) col "#333"
        ("clip-" ++ sanitizeID n) "clip" "")
      (extends_writeText
        (writeRect b x (y + 2) w (h - 2 * 2) col "#333" ("clip-" ++ sanitizeID n) "clip" "")
        (x + w / 2) (y + h / 2) (if n = "" then "Clip" else n) "middle" "" "clip-label")
  · rw [if_neg hw]
    exact extends_writeRect b x (y + 2) w (h - 2 * 2) col "#333"
      ("clip-" ++ sanitizeID n) "clip" ""

/-- `drawGap` only appends output. -/
theorem extends_drawGap (b : St) (x y w h : ℚ) :
    Extends b (drawGap b x y w h) :=
  extends_writeRect b x (y + 2) w (h - 2 * 2) GapColor "#999" "gap-0x0" "gap" ""

/-- `drawTransition` only appends output. -/
theorem extends_drawTransition (b : St) (x y w h : ℚ) :
    Extends b (drawTransition b x y w h) :=
  extends_writePath b
    ("M " ++ fmt2 x ++ " " ++ fmt2 ((y + 2) + (h - 2 * 2)) ++ " L " ++ fmt2 (x + w)
      ++ " " ++ fmt2 (y + 2))
    "none" TransitionColor 3 "transition"

/-- The item loop only appends output. -/
theorem extends_drawItems (yo h ts : ℚ) (col : String) :
    ∀ (items : List Item) (b : St) (c : ℚ),
      Extends b (drawItems yo h ts col b c items).1 := by
  intro items
  induction items with
  | nil =>
    intro b c
    exact extends_refl b
  | cons it rest ih =>
    intro b c
    cases it with
    | clip n d vis =>
      cases d with
      | none => exact ih b c
      | some dur =>
        exact extends_trans (extends_drawClip _ _ _ _ _ _ _) (ih _ _)
    | gap d vis =>
      cases d with
      | none => exact ih b c
      | some dur =>
        exact extends_trans (extends_drawGap _ _ _ _ _) (ih _ _)
    | transition d =>
      cases d with
      | none => exact ih b c
      | some dur =>
        exact extends_trans (extends_drawTransition _ _ _ _ _) (ih _ _)

/-- The ruler loop only appends output. -/
theorem extends_rulerLoop (durS i ts rY : ℚ) :
    ∀ (n : ℕ) (b : St) (t : ℚ), Extends b (rulerLoop durS i ts rY n b t) := by
  intro n
  induction n with
  | zero =>
    intro b t
    exact extends_refl b
  | succ m ih =>
    intro b t
    by_cases hc : t ≤ durS
    · rw [rulerLoop, if_pos hc]
      exact extends_trans (extends_writeLine _ _ _ _ _ _ _ _)
        (extends_trans (extends_writeText _ _ _ _ _ _ _) (ih _ _))
    · rw [rulerLoop, if_neg hc]
      exact extends_refl b

/-- Opening a group, running an output-appending body and closing the group
again only appends output: the indentation and the open/close balance are
restored. -/
theorem extends_group (b : St) (id cls : String) (f : St → St)
    (hf : ∀ x : St, Extends x (f x)) :
    Extends b (endGroup (f (startGroup b id cls))) := by
  obtain ⟨⟨s, hs⟩, hi, hg⟩ := hf (startGroup b id cls)
  refine ⟨?_, ?_, ?_⟩
  · apply append_chain
    rw [hs]
    apply append_chain
    exact ⟨_, rfl⟩
  · simp only [endGroup]
    rw [hi]
    simp only [startGroup]
    omega
  · have hso : (startGroup b id cls).gOpen = b.gOpen + 1 := rfl
    have hsc : (startGroup b id cls).gClose = b.gClose := rfl
    rw [hso, hsc] at hg
    simp only [endGroup]
    omega

/-- `drawTimeRuler` only appends output. -/
theorem extends_drawTimeRuler (w : ℤ) (b : St) (dur : RationalTime) (ts : ℚ) :
    Extends b (drawTimeRuler w b dur ts) :=
  extends_group b "time-ruler" "ruler"
    (fun x => rulerLoop dur.toSeconds (calculateTimeInterval dur.toSeconds) ts MarginTop
      (rulerFuel dur.toSeconds (calculateTimeInterval dur.toSeconds))
      (writeRect x MarginLeft MarginTop ((w : ℚ) - MarginLeft - MarginRight) RulerHeight
        TrackLabelBg GridColor "" "ruler-bg" "") 0)
    (fun x => extends_trans (extends_writeRect x _ _ _ _ _ _ _ _ _)
      (extends_rulerLoop _ _ _ _ _ _ _))

/-- `drawTrack` only appends output. -/
theorem extends_drawTrack (w : ℤ) (b : St) (tr : Track) (yo h ts : ℚ) :
    Extends b (drawTrack w b tr yo h ts) :=
  extends_group b ("track-" ++ sanitizeID tr.name) "track"
    (fun x => (drawItems yo h ts
        (if tr.kind = TrackKindAudio then AudioTrackColor else VideoTrackColor)
        (writeText
          (writeRect x MarginLeft yo ((w : ℚ) - MarginLeft - MarginRight) h
            ((if tr.kind = TrackKindAudio then AudioTrackColor else VideoTrackColor) ++ "33")
            GridColor "" "track-bg" "")
          (MarginLeft - 10) (yo + h / 2)
          (if tr.name = "" then tr.kind ++ " Track" else tr.name) "end" "" "track-label")
        0 tr.children).1)
    (fun x => extends_trans (extends_writeRect x _ _ _ _ _ _ _ _ _)
      (extends_trans (extends_writeText _ _ _ _ _ _ _)
        (extends_drawItems _ _ _ _ tr.children _ 0)))

/-- The track loop only appends output. -/
theorem extends_trackLoop (w th : ℤ) (ts : ℚ) :
    ∀ (children : List Child) (b : St) (i : ℕ),
      Extends b (trackLoop w th ts b children i) := by
  intro children
  induction children with
  | nil =>
    intro b i
    exact extends_refl b
  | cons ch rest ih =>
    intro b i
    cases ch with
    | other => exact ih b (i + 1)
    | track tr => exact extends_trans (extends_drawTrack _ _ _ _ _ _) (ih _ _)

/-- C7: whenever `Encode` succeeds, the output starts with the document
header sized to the configured width and height (with its view box), ends
with the matching `</svg>` close tag, every group open has exactly one
matching close, and the builder's nesting depth is back at its post-header
value 1 before the footer is written (the footer leaves it unchanged). -/
theorem encode_output_balanced :
    ∀ (w hgt : ℤ) (tl : Option Timeline),
      (encode w hgt tl).2 = none →
      (∃ r, (encode w hgt tl).1.out = headerString w hgt ++ r) ∧
      (∃ p, (encode w hgt tl).1.out = p ++ "</svg>\n") ∧
      (encode w hgt tl).1.gOpen = (encode w hgt tl).1.gClose ∧
      (encode w hgt tl).1.indent = 1 := by
  intro w hgt tl hnone
  cases tl with
  | none => exact absurd hnone (by simp [encode])
  | some t =>
    rcases ht : t.duration with e | d
    · simp only [encode, ht] at hnone
      exact Option.noConfusion hnone
    · by_cases hv : d.value ≤ 0
      · simp only [encode, ht, if_pos hv] at hnone
        exact Option.noConfusion hnone
      · rcases htr : t.tracks with _ | stk
        · simp only [encode, ht, if_neg hv, htr] at hnone
          exact Option.noConfusion hnone
        · by_cases hn : stk.children.length = 0
          · simp only [encode, ht, if_neg hv, htr, if_pos hn] at hnone
            exact Option.noConfusion hnone
          · simp only [encode, ht, if_neg hv, htr, if_neg hn] at hnone ⊢
            have hmid := extends_trans
              (extends_drawTimeRuler w (writeStyles (writeHeader initSt w hgt)) d
                (((w : ℚ) - MarginLeft - MarginRight) / d.toSeconds))
              (extends_trackLoop w
                (trackHeightFor ((hgt : ℚ) - MarginTop - MarginBottom) stk.children.length)
                (((w : ℚ) - MarginLeft - MarginRight) / d.toSeconds) stk.children
                (drawTimeRuler w (writeStyles (writeHeader initSt w hgt)) d
                  (((w : ℚ) - MarginLeft - MarginRight) / d.toSeconds)) 0)
            obtain ⟨⟨s, hs⟩, hi, hg⟩ := hmid
            refine ⟨?_, ⟨_, rfl⟩, ?_, ?_⟩
            · apply append_chain
              rw [hs]
              apply append_chain
              apply append_chain
              exact append_stop _
            · have h1 : (writeStyles (writeHeader initSt w hgt)).gOpen = 0 := rfl
              have h2 : (writeStyles (writeHeader initSt w hgt)).gClose = 0 := rfl
              simp only [writeFooter]
              omega
            · have h3 : (writeStyles (writeHeader initSt w hgt)).indent = 1 := rfl
              simp only [writeFooter]
              omega

/-- Witness for C7 on a concrete one-track timeline. -/
theorem encode_output_balanced_witness :
    (∃ r, (encode 1200 600 (some ⟨.ok ⟨10, 1⟩,
        some ⟨[Child.track ⟨"V", "Video", [Item.clip "c" (some ⟨10, 1⟩) true]⟩]⟩⟩)).1.out
      = headerString 1200 600 ++ r) ∧
    (∃ p, (encode 1200 600 (some ⟨.ok ⟨10, 1⟩,
        some ⟨[Child.track ⟨"V", "Video", [Item.clip "c" (some ⟨10, 1⟩) true]⟩]⟩⟩)).1.out
      = p ++ "</svg>\n") ∧
    (encode 1200 600 (some ⟨.ok ⟨10, 1⟩,
        some ⟨[Child.track ⟨"V", "Video", [Item.clip "c" (some ⟨10, 1⟩) true]⟩]⟩⟩)).1.gOpen
      = (encode 1200 600 (some ⟨.ok ⟨10, 1⟩,
        some ⟨[Child.track ⟨"V", "Video", [Item.clip "c" (some ⟨10, 1⟩) true]⟩]⟩⟩)).1.gClose ∧
    (encode 1200 600 (some ⟨.ok ⟨10, 1⟩,
        some ⟨[Child.track ⟨"V", "Video", [Item.clip "c" (some ⟨10, 1⟩) true]⟩]⟩⟩)).1.indent
      = 1 :=
  encode_output_balanced 1200 600 (some ⟨.ok ⟨10, 1⟩,
    some ⟨[Child.track ⟨"V", "Video", [Item.clip "c" (some ⟨10, 1⟩) true]⟩]⟩⟩) rfl

/-- C10: a nil timeline is rejected before the builder writes anything, so
zero bytes reach the output sink. -/
theorem encode_nil_zero_bytes :
    ∀ width height : ℤ,
      (encode width height none).1.out = "" ∧
      (encode width height none).2 = some "timeline is nil" :=
  fun _ _ => ⟨rfl, rfl⟩

end OtioSvg
